import Mathlib

/-!
Verification of the natural-language specification of the coretime broker
(region algebra, sale, assignment, revenue accounting) and of the
derive_impl item-merging utility, against the repository's sources.

The broker pallet implementation itself is not present in the repository
snapshot (only its test suite, frame/broker/src/tests.rs, is); all
definitions in the Broker namespace are therefore modelled from the spec
(spec.md sections 3, 4.1-4.5), with the test suite used to pin concrete
scenario values.  The DeriveImpl namespace is a direct shallow embedding
of frame/support/procedural/src/derive_impl.rs.

The file is laid out as definitions first, then theorems.
-/

namespace Broker

/-- Modelled from the spec: TOTAL_CHUNKS, the number of addressable chunks
per core (spec section 4.4). -/
def TOTAL_CHUNKS : Nat := 80

/-- Modelled from the spec: FULL_CORE_TICKS, one full core's time budget for
a timeslice (spec section 4.4 fixes it at 57600). -/
def FULL_CORE_TICKS : Nat := 57600

/-- Modelled from the spec: CorePart, a fixed-width 80-bit mask
(spec section 3), embedded as the set of its set bits. -/
abbrev CorePart := Finset (Fin 80)

/-- Modelled from the spec: the mask with all 80 bits set (spec section 3,
"complete() = all bits set"). -/
def CorePart.complete : CorePart := Finset.univ

/-- Modelled from the spec: the empty mask (spec section 4.1). -/
def CorePart.void : CorePart := ∅

/-- Modelled from the spec: from_chunk(a,b), the mask with bits in the
half-open range [a,b) set (spec section 3). -/
def CorePart.from_chunk (a b : Nat) : CorePart :=
  Finset.univ.filter (fun i => a ≤ i.val ∧ i.val < b)

/-- Modelled from the spec: popcount of a mask (spec section 4.1). -/
def CorePart.popcount (p : CorePart) : Nat := p.card

/-- Modelled from the spec: the per-entry scheduling weight
ticks(part) = popcount(part) * (FULL_CORE_TICKS / TOTAL_CHUNKS)
(spec section 4.4). -/
def ticks (p : CorePart) : Nat := p.popcount * (FULL_CORE_TICKS / TOTAL_CHUNKS)

/-- Modelled from the spec: RegionId, identifying ownership of a fractional
core starting at a timeslice (spec section 3).  The field begin_ is the
spec's begin, renamed only to avoid clashing with Lean keywords. -/
structure RegionId where
  begin_ : Nat
  core : Nat
  part : CorePart
deriving DecidableEq

/-- Modelled from the spec: RegionRecord (spec section 3).  The field end_
is the spec's end, renamed only to avoid the Lean keyword. -/
structure RegionRecord where
  end_ : Nat
  owner : Option Nat
  paid : Option Nat
deriving DecidableEq

/-- Modelled from the spec: the synchronous error kinds of section 7. -/
inductive BrokerError where
  | UnknownRegion
  | NotOwner
  | NotPooled
  | InvalidPivot
  | InvalidPart
  | SaleNotActive
  | Oversold
  | PriceTooHigh
deriving DecidableEq

deriving instance DecidableEq for Except

/-- Modelled from the spec: partition(region, pivot) of the missing Region
Ledger (spec section 4.2): requires region.begin < pivot < record.end and
replaces the record with two records covering [begin,pivot) and [pivot,end),
both with the same part and owner; fails with InvalidPivot when the pivot is
outside the open interval. -/
def partition (region : RegionId) (record : RegionRecord) (pivot : Nat) :
    Except BrokerError ((RegionId × RegionRecord) × (RegionId × RegionRecord)) :=
  if region.begin_ < pivot ∧ pivot < record.end_ then
    Except.ok ((region, { record with end_ := pivot }),
               ({ region with begin_ := pivot }, record))
  else
    Except.error BrokerError.InvalidPivot

/-- Modelled from the spec: interlace(region, new_part) of the missing Region
Ledger (spec section 4.2): requires new_part to be a non-empty strict subset
of region.part and replaces the record with two sibling records sharing
[begin,end), one keyed by new_part and one by part minus new_part; fails
with InvalidPart on empty, non-subset or whole-equal input. -/
def interlace (region : RegionId) (record : RegionRecord) (new_part : CorePart) :
    Except BrokerError ((RegionId × RegionRecord) × (RegionId × RegionRecord)) :=
  if new_part ≠ ∅ ∧ new_part ⊂ region.part then
    Except.ok (({ region with part := new_part }, record),
               ({ region with part := region.part \ new_part }, record))
  else
    Except.error BrokerError.InvalidPart

/-- Modelled from the spec: CoreAssignment, a closed tagged variant
Idle | Pool | Task(Nat) (spec section 3). -/
inductive CoreAssignment where
  | Idle
  | Pool
  | Task (id : Nat)
deriving DecidableEq

/-- Modelled from the spec: ScheduleItem (spec section 3). -/
structure ScheduleItem where
  assignment : CoreAssignment
  part : CorePart
deriving DecidableEq

/-- Modelled from the spec: a Schedule is an ordered sequence of
ScheduleItems (spec section 3). -/
abbrev Schedule := List ScheduleItem

/-- Modelled from the spec: the Workplan and Reservation state of the
missing broker pallet (spec sections 3, 4.2, 4.4): the Reservation table
(core to Schedule, applied to every future timeslice) and the workplan
entries installed per covered timeslice by assign/pool, kept in
installation order. -/
structure AssignerState where
  reservations : List (Nat × Schedule)
  workplan : List ((Nat × Nat) × ScheduleItem)
deriving DecidableEq

/-- Modelled from the spec: the Reservation table's items for a core,
always active (spec section 4.4). -/
def reservationItems (s : AssignerState) (core : Nat) : Schedule :=
  ((s.reservations.filter (fun e => e.1 = core)).map (fun e => e.2)).flatten

/-- Modelled from the spec: the workplan items installed for a
(timeslice, core) pair, in installation order (spec section 4.2). -/
def workplanItems (s : AssignerState) (t : Nat) (core : Nat) : Schedule :=
  (s.workplan.filter (fun e => e.1 = (t, core))).map (fun e => e.2)

/-- Modelled from the spec: the set of ScheduleItems active at a timeslice
for a core, the static Reservation table layered under the live records
(spec section 4.4). -/
def activeItems (s : AssignerState) (t : Nat) (core : Nat) : Schedule :=
  reservationItems s core ++ workplanItems s t core

/-- Modelled from the spec: one step of the assignment aggregation, merging
an item's part into an existing entry for the identical assignment variant,
or appending a fresh entry (spec section 4.4). -/
def addAgg (acc : List (CoreAssignment × CorePart)) (a : CoreAssignment) (p : CorePart) :
    List (CoreAssignment × CorePart) :=
  match acc with
  | [] => [(a, p)]
  | (b, q) :: rest => if a = b then (b, q ∪ p) :: rest else (b, q) :: addAgg rest a p

/-- Modelled from the spec: aggregation by CoreAssignment variant, merging
identical Task/Pool entries across disjoint parts (spec section 4.4). -/
def aggregate (items : Schedule) : List (CoreAssignment × CorePart) :=
  items.foldl (fun acc it => addAgg acc it.assignment it.part) []

/-- Modelled from the spec: the ordered (assignment, ticks) entries of the
aggregated schedule; idle entries carry no weight and are not emitted
(spec section 4.4). -/
def entriesOf (items : Schedule) : List (CoreAssignment × Nat) :=
  (aggregate items).filterMap
    (fun e => if e.1 = CoreAssignment.Idle then none else some (e.1, ticks e.2))

/-- Modelled from the spec: the AssignCore message pushed to the external
scheduler (spec section 6).  The field begin_ is the spec's begin. -/
structure AssignCoreEvent where
  core : Nat
  begin_ : Nat
  assignment : List (CoreAssignment × Nat)
  end_hint : Option Nat
deriving DecidableEq

/-- Modelled from the spec: the Assigner's output for one core at timeslice
t, compiled at a lookahead of exactly two timeslices before timeslice t + 2
takes effect; idle cores with no active records emit nothing, and end_hint
is none when no future change is known (spec section 4.4). -/
def emitOne (s : AssignerState) (t : Nat) (core : Nat) :
    Option (Nat × AssignCoreEvent) :=
  if entriesOf (activeItems s (t + 2) core) = [] then none
  else some (t, { core := core, begin_ := t + 2,
                  assignment := entriesOf (activeItems s (t + 2) core), end_hint := none })

/-- Modelled from the spec: the Assigner's aggregated output over all cores
at timeslice t (spec section 4.4). -/
def emitAt (s : AssignerState) (cores : List Nat) (t : Nat) :
    List (Nat × AssignCoreEvent) :=
  cores.filterMap (emitOne s t)

/-- Modelled from the spec: the trace of emitted (emission time, AssignCore)
pairs of a run of the Timeslice Clock through timeslices 0..N
(spec sections 4.4, 6). -/
def coretimeTrace (s : AssignerState) (cores : List Nat) : Nat → List (Nat × AssignCoreEvent)
  | 0 => emitAt s cores 0
  | n + 1 => coretimeTrace s cores n ++ emitAt s cores (n + 1)

/-- Modelled from the spec: the sub-trace of events addressed to one core
and taking effect at one timeslice. -/
def eventsFor (tr : List (Nat × AssignCoreEvent)) (core : Nat) (T : Nat) :
    List (Nat × AssignCoreEvent) :=
  tr.filter (fun e => decide (e.2.core = core ∧ e.2.begin_ = T))

/-- Modelled from the spec: assign(region, task) of the missing Region
Ledger, installing a ScheduleItem with the Task variant into the Workplan
for every timeslice in [begin, end) on the region's core
(spec section 4.2). -/
def do_assign (s : AssignerState) (region : RegionId) (end_ : Nat) (task : Nat) :
    AssignerState :=
  { s with workplan := (s.workplan ++
      (List.range (end_ - region.begin_)).map
        (fun i => ((region.begin_ + i, region.core), ⟨CoreAssignment.Task task, region.part⟩))) }

/-- Modelled from the spec: sibling part lists obtainable from one original
complete-core region purely by interlacing: the root is the complete part,
and any part may be replaced by a valid interlace split of it
(spec sections 4.2, 8). -/
inductive InterlaceSiblings : List CorePart → Prop
  | root : InterlaceSiblings [CorePart.complete]
  | split (pre post : List CorePart) (p q : CorePart) :
      InterlaceSiblings (pre ++ p :: post) → q ≠ ∅ → q ⊂ p →
      InterlaceSiblings (pre ++ q :: (p \ q) :: post)

/-- Modelled from the spec: SaleInfo, the one active record of a sale
period (spec section 3). -/
structure SaleInfo where
  region_begin : Nat
  region_end : Nat
  sale_start : Nat
  leadin_length : Nat
  price : Nat
  cores_offered : Nat
  cores_sold : Nat
  first_core : Nat
deriving DecidableEq

/-- Modelled from the spec: the region length of a sale period, in
timeslices.  The spec leaves the configured length abstract; the scenario
model fixes it at 3, long enough to cover every timeslice the reference
scenarios inspect. -/
def REGION_LENGTH : Nat := 3

/-- Modelled from the spec: the lookahead-adjusted future timeslice at
which regions minted by the first sale begin (spec section 4.3).  The
reference scenarios (spec section 8, Scenario A) fix it at timeslice 8:
the asserted AssignCore event has begin 8. -/
def SCENARIO_REGION_BEGIN : Nat := 8

/-- Modelled from the spec: start_sales(end_price) of the missing Sale
Manager (spec section 4.3), creating the first SaleInfo with region_begin
at a lookahead-adjusted future timeslice so minted regions never
retroactively cover already-dispatched timeslices. -/
def do_start_sales (price : Nat) (cores : Nat) : SaleInfo :=
  { region_begin := SCENARIO_REGION_BEGIN
    region_end := SCENARIO_REGION_BEGIN + REGION_LENGTH
    sale_start := 0
    leadin_length := 2
    price := price
    cores_offered := cores
    cores_sold := 0
    first_core := 0 }

/-- Modelled from the spec: purchase(buyer, max_price) of the missing Sale
Manager (spec section 4.3): requires an active sale with unsold cores and
current price at most max_price; mints a whole-core region
(begin = region_begin, core = next unsold core, part = complete) owned by
the buyer, and increments cores_sold. -/
def do_purchase (sale : SaleInfo) (buyer : Nat) (max_price : Nat) :
    Except BrokerError (RegionId × RegionRecord × SaleInfo) :=
  if sale.cores_offered ≤ sale.cores_sold then
    Except.error BrokerError.Oversold
  else if max_price < sale.price then
    Except.error BrokerError.PriceTooHigh
  else
    Except.ok (⟨sale.region_begin, sale.first_core + sale.cores_sold, CorePart.complete⟩,
      ⟨sale.region_end, some buyer, some sale.price⟩,
      { sale with cores_sold := sale.cores_sold + 1 })

/-- Modelled from the spec: Scenario A of spec section 8: start_sales,
advance two timeslices, purchase a core, assign it to task 1000.  The state
holds the Workplan resulting from those operations. -/
def scenarioA : AssignerState :=
  match do_purchase (do_start_sales 100 1) 1 (2 ^ 64 - 1) with
  | Except.ok (region, record, _) => do_assign ⟨[], []⟩ region record.end_ 1000
  | Except.error _ => ⟨[], []⟩

/-- Modelled from the spec: Scenario B of spec section 8: the purchased
whole-core region is interlaced into its first 20 chunks and their
complement, each piece is partitioned in time (the 20-chunk piece at
begin + 1, the complement at begin + 2), and the four pieces are assigned
to tasks 1001..1004 in order.  The state holds the resulting Workplan. -/
def scenarioB : AssignerState :=
  let s1 := do_assign ⟨[], []⟩ ⟨8, 0, CorePart.from_chunk 0 20⟩ 9 1001
  let s2 := do_assign s1 ⟨8, 0, CorePart.from_chunk 20 80⟩ 10 1002
  let s3 := do_assign s2 ⟨9, 0, CorePart.from_chunk 0 20⟩ 11 1003
  do_assign s3 ⟨10, 0, CorePart.from_chunk 20 80⟩ 11 1004

/-- Modelled from the spec: one InstaPoolHistory entry, keyed by timeslice:
the total pooled contribution and the instantaneous revenue collected for
that timeslice (spec section 3). -/
structure InstaPoolEntry where
  total_contributed_parts : Nat
  revenue : Nat
deriving DecidableEq

/-- Modelled from the spec: the revenue cursor of the missing InstaPool and
Revenue Engine (spec section 3): the next timeslice to process and the
present timeslice it advances towards. -/
structure RevenueCursor where
  next_timeslice_to_process : Nat
  present : Nat
deriving DecidableEq

/-- Modelled from the spec: check_revenue (spec section 4.5): a single
bounded step which inspects the oldest unprocessed InstaPoolHistory entry
and makes its timeslice eligible for claims (a zero-contribution timeslice
is merely skipped, so either way the cursor advances by one); returns true
while unprocessed history remains, false once the cursor reaches the
present. -/
def check_revenue (c : RevenueCursor) : RevenueCursor × Bool :=
  if c.next_timeslice_to_process < c.present then
    ({ c with next_timeslice_to_process := c.next_timeslice_to_process + 1 }, true)
  else
    (c, false)

/-- Modelled from the spec: a caller driving check_revenue in a loop
(spec section 4.5), iterated a given number of times. -/
def iterCheck (c : RevenueCursor) : Nat → RevenueCursor
  | 0 => c
  | n + 1 => iterCheck (check_revenue c).1 n

/-- Modelled from the spec: the revenue-claim view of one pooled region
(spec sections 3, 4.5): its time range, owner (none once pooled), its
contributed popcount and the payee recorded at pooling time.  Fields
begin_ and end_ are the spec's begin and end. -/
structure PoolRegion where
  begin_ : Nat
  end_ : Nat
  owner : Option Nat
  popcount : Nat
  payee : Nat
deriving DecidableEq

/-- Modelled from the spec: the per-region payment bookkeeping advanced by
claim_revenue so that no timeslice is ever paid twice (spec sections 3,
4.5, invariant I5): the set of timeslices already paid and the total
already distributed for the region. -/
structure RegionClaimState where
  paid : Finset Nat
  totalReceived : Nat
deriving DecidableEq

/-- Modelled from the spec: the proportional share
revenue_at_t * region_popcount / total_contributed_parts_at_t
(spec section 4.5). -/
def share (hist : Nat → InstaPoolEntry) (pc : Nat) (t : Nat) : Nat :=
  (hist t).revenue * pc / (hist t).total_contributed_parts

/-- Modelled from the spec: the timeslices of the region's range that are
eligible, i.e. below the revenue cursor (processed by check_revenue)
(spec section 4.5). -/
def eligibleRange (r : PoolRegion) (cursor : Nat) : List Nat :=
  ((List.range (r.end_ - r.begin_)).map (fun i => r.begin_ + i)).filter
    (fun t => decide (t < cursor))

/-- Modelled from the spec: the eligible timeslices of the region's range
that are not yet paid, in increasing order, up to max_timeslices of them
(spec section 4.5). -/
def claimable (r : PoolRegion) (cursor : Nat) (paid : Finset Nat)
    (maxT : Nat) : List Nat :=
  (((List.range (r.end_ - r.begin_)).map (fun i => r.begin_ + i)).filter
    (fun t => decide (t < cursor ∧ t ∉ paid))).take maxT

/-- Modelled from the spec: claim_revenue(region, max_timeslices)
(spec section 4.5): for a pooled (owner = none) region, walks up to
max_timeslices eligible, not-yet-paid timeslices of the region's range,
accumulates the proportional shares, pays the recorded payee that amount
out of the InstaPool's pot and marks those timeslices paid; when nothing
is claimable it returns zero paid, not an error; a region whose owner is
still set fails NotPooled.  The result is (new claim state, amount paid,
new pot). -/
def claim_revenue (hist : Nat → InstaPoolEntry) (r : PoolRegion)
    (cursor : Nat) (st : RegionClaimState) (pot : Nat) (maxT : Nat) :
    Except BrokerError (RegionClaimState × Nat × Nat) :=
  if r.owner ≠ none then
    Except.error BrokerError.NotPooled
  else
    Except.ok ({ paid := st.paid ∪ (claimable r cursor st.paid maxT).toFinset,
                 totalReceived :=
                   st.totalReceived +
                     ((claimable r cursor st.paid maxT).map (share hist r.popcount)).sum },
               ((claimable r cursor st.paid maxT).map (share hist r.popcount)).sum,
               pot - ((claimable r cursor st.paid maxT).map (share hist r.popcount)).sum)

/-- Modelled from the spec: the region's true proportional share summed
once per eligible timeslice (spec section 8, "No double payment"). -/
def fullShare (hist : Nat → InstaPoolEntry) (r : PoolRegion)
    (cursor : Nat) : Nat :=
  ((eligibleRange r cursor).map (share hist r.popcount)).sum

/-- Modelled from the spec: the bookkeeping invariant of a region's claim
state (spec invariant I5): every paid timeslice lies in the region's
eligible range, and the total received is exactly the sum of the shares of
the paid timeslices. -/
def ClaimInv (hist : Nat → InstaPoolEntry) (r : PoolRegion)
    (cursor : Nat) (st : RegionClaimState) : Prop :=
  (∀ t ∈ st.paid, t ∈ eligibleRange r cursor) ∧
  st.totalReceived = st.paid.sum (share hist r.popcount)

/-- Modelled from the spec: Scenario C's InstaPoolHistory (spec section 8):
a single timeslice (timeslice 0) of instantaneous usage with revenue R
against a total pooled contribution of 100 parts. -/
def scenarioC_hist (R : Nat) : Nat → InstaPoolEntry :=
  fun t => if t = 0 then ⟨100, R⟩ else ⟨0, 0⟩

/-- Modelled from the spec: Scenario C's first buyer, pooling 20 of the 100
total chunks, payee account 2. -/
def scenarioC_regionA : PoolRegion := ⟨0, 1, none, 20, 2⟩

/-- Modelled from the spec: Scenario C's second buyer, pooling 80 of the
100 total chunks, payee account 3. -/
def scenarioC_regionB : PoolRegion := ⟨0, 1, none, 80, 3⟩

end Broker

namespace DeriveImpl

/-- Identifier of a syn item, embedded as a string. -/
abbrev Ident := String

/-- Shallow embedding of the syn ImplItem variants the source
distinguishes: associated types, constants and methods (which carry an
identifier) and any other impl item (which does not); the body field
carries the item's remaining tokens. -/
inductive ImplItem where
  | typeItem (ident : Ident) (body : String)
  | constItem (ident : Ident) (body : String)
  | methodItem (ident : Ident) (body : String)
  | otherItem (body : String)
deriving DecidableEq

/-- Embedding of syn's ItemImpl as far as combine_impls and
derive_impl_inner inspect it: the list of items of the impl block. -/
structure ItemImpl where
  items : List ImplItem
deriving DecidableEq

/-- Embedding of syn's Path: a non-empty segment list, the head being the
first segment (whose unwrap in the source never fails on parsed paths). -/
structure Path where
  head : Ident
  rest : List Ident
deriving DecidableEq

/-- Rendering of a path back to tokens. -/
def Path.render (p : Path) : String :=
  p.rest.foldl (fun acc s => acc ++ "::" ++ s) p.head

/-- Embedding of impl_item_ident (derive_impl.rs lines 143-150): Const,
Method and Type items have an identifier, all other items none. -/
def impl_item_ident : ImplItem → Option Ident
  | ImplItem.typeItem i _ => some i
  | ImplItem.constItem i _ => some i
  | ImplItem.methodItem i _ => some i
  | ImplItem.otherItem _ => none

/-- The identifiers of the local impl's items (combine_impls'
existing_local_keys, lines 153-157). -/
def localKeys (local_impl : ItemImpl) : List Ident :=
  local_impl.items.filterMap impl_item_ident

/-- The local impl's items that lack an identifier (combine_impls'
existing_unsupported_items, lines 158-163). -/
def localIdentless (local_impl : ItemImpl) : List ImplItem :=
  local_impl.items.filter (fun i => (impl_item_ident i).isNone)

/-- The replacement body produced for an uncolliding foreign associated
type (combine_impls lines 178-180): an alias to the foreign path's
DefaultConfig item, the source crate path being the foreign path's first
segment. -/
def aliasBody (foreign_path : Path) (ident : Ident) : String :=
  "<" ++ foreign_path.render ++ " as " ++ foreign_path.head ++
    "::pallet::DefaultConfig>::" ++ ident

/-- Embedding of the closure inside combine_impls' filter_map
(derive_impl.rs lines 170-196). -/
def combineStep (local_impl : ItemImpl) (foreign_path : Path) (item : ImplItem) :
    Option ImplItem :=
  match impl_item_ident item with
  | some ident =>
    if ident ∈ localKeys local_impl then
      none
    else
      match item with
      | ImplItem.typeItem _ _ => some (ImplItem.typeItem ident (aliasBody foreign_path ident))
      | _ => some item
  | none =>
    if item ∈ localIdentless local_impl then none else some item

/-- Embedding of combine_impls (derive_impl.rs lines 152-200): the final
impl starts as the local impl and is extended with the filter_mapped
foreign items. -/
def combine_impls (local_impl foreign_impl : ItemImpl) (foreign_path : Path) : ItemImpl :=
  { items := local_impl.items ++ foreign_impl.items.filterMap (combineStep local_impl foreign_path) }

/-- Outcome of a macro-expansion function that can panic; a Rust panic is
distinct from a returned syn::Result error. -/
inductive MacroOut (α : Type) where
  | panicked (msg : String)
  | ok (val : α)
deriving DecidableEq

/-- Embedding of the assert! in derive_impl_inner (derive_impl.rs lines
118-124): the all-iteration applies type_item_name to each item in order,
which panics on the first item that is not an associated type; otherwise
the first type item whose identifier is not listed in type_items makes the
iteration return false and the assert itself panic. -/
def checkTypeItems : List ImplItem → List Ident → Option String
  | [], _ => none
  | ImplItem.typeItem id _ :: rest, tys =>
    if id ∈ tys then checkTypeItems rest tys
    else some "some item in the partial_impl_block is unexpected"
  | _ :: _, _ => some "only support type items for now"

/-- Whether an item is an associated type with the given identifier; on the
no-panic path of derive_impl_inner this is what comparing type_item_name
with an identifier computes. -/
def isTypeNamed (item : ImplItem) (id : Ident) : Bool :=
  match item with
  | ImplItem.typeItem n _ => n = id
  | _ => false

/-- The filled-in body for a type item missing from the user's partial impl
block (derive_impl.rs line 132): an alias to the implementing type's
DefaultConfig item. -/
def innerAlias (implementing_type : Path) (id : Ident) : String :=
  "<" ++ implementing_type.render ++ " as " ++ implementing_type.head ++
    "::pallet::DefaultConfig>::" ++ id

/-- Embedding of derive_impl_inner (derive_impl.rs lines 100-141) after a
successful parse of its input: the assert walks the partial impl block's
items (panicking as checkTypeItems describes); then every identifier of
type_items with no item of that name in the partial impl block is appended
as an aliased type item, and the extended impl block is returned. -/
def derive_impl_inner (pImplItems : List ImplItem) (type_items : List Ident)
    (implementing_type : Path) : MacroOut ItemImpl :=
  match checkTypeItems pImplItems type_items with
  | some msg => MacroOut.panicked msg
  | none =>
    MacroOut.ok { items := (pImplItems ++
      ((type_items.filter (fun id => ! pImplItems.any (fun i => isTypeNamed i id))).map
        (fun id => ImplItem.typeItem id (innerAlias implementing_type id)))) }

/-- Concrete local impl for the C9 counterexample: a single item without an
identifier. -/
def cexLocal : ItemImpl := ⟨[ImplItem.otherItem "X"]⟩

/-- Concrete foreign impl for the C9 counterexample: the identical item
without an identifier. -/
def cexForeign : ItemImpl := ⟨[ImplItem.otherItem "X"]⟩

/-- Concrete foreign path for the C9 counterexample. -/
def cexPath : Path := ⟨"frame_system", []⟩

end DeriveImpl

namespace Broker

/-- Ticks are additive across an interlace split of a part. -/
theorem ticks_split {p q : CorePart} (h : q ⊆ p) : ticks q + ticks (p \ q) = ticks p := by
  unfold ticks CorePart.popcount
  rw [← Nat.add_mul]
  congr 1
  rw [Nat.add_comm]
  exact Finset.card_sdiff_add_card_eq_card h

/-- Filtering a trace for one core and one begin distributes over
concatenation of traces. -/
theorem eventsFor_append (a b : List (Nat × AssignCoreEvent))
    (core : Nat) (T : Nat) :
    eventsFor (a ++ b) core T = eventsFor a core T ++ eventsFor b core T := by
  simp [eventsFor, List.filter_append]

/-- The events of a single emission step for one core and one begin: a
singleton exactly when the step's lookahead target is that begin, the core
is driven and its aggregated entries are non-empty. -/
theorem eventsFor_emitAt (s : AssignerState) (core : Nat) (t T : Nat) :
    ∀ cores : List Nat, cores.Nodup →
      eventsFor (emitAt s cores t) core T =
        (if t + 2 = T ∧ core ∈ cores ∧ entriesOf (activeItems s T core) ≠ [] then
          [(t, { core := core, begin_ := T,
                 assignment := entriesOf (activeItems s T core), end_hint := none })]
        else []) := by
  intro cores
  induction cores with
  | nil =>
    intro _
    simp [eventsFor, emitAt]
  | cons c rest ih =>
    intro hnd
    obtain ⟨hcr, hndr⟩ := List.nodup_cons.mp hnd
    have hrest := ih hndr
    rw [emitAt, List.filterMap_cons]
    by_cases hc : entriesOf (activeItems s (t + 2) c) = []
    · rw [show emitOne s t c = none by simp [emitOne, hc]]
      rw [show List.filterMap (emitOne s t) rest = emitAt s rest t from rfl, hrest]
      refine if_congr ?_ rfl rfl
      constructor
      · rintro ⟨h1, h2, h3⟩
        exact ⟨h1, List.mem_cons_of_mem _ h2, h3⟩
      · rintro ⟨h1, h2, h3⟩
        rcases List.mem_cons.mp h2 with h | h
        · exfalso
          subst h
          subst h1
          exact h3 hc
        · exact ⟨h1, h, h3⟩
    · have hone : emitOne s t c =
          some (t, ⟨c, t + 2, entriesOf (activeItems s (t + 2) c), none⟩) := by
        simp [emitOne, hc]
      rw [hone]
      rw [show List.filterMap (emitOne s t) rest = emitAt s rest t from rfl]
      rw [eventsFor, List.filter_cons]
      by_cases hct : c = core ∧ t + 2 = T
      · obtain ⟨hcc, hTT⟩ := hct
        subst hcc
        subst hTT
        rw [if_pos (by simp)]
        rw [show List.filter (fun e => decide (e.2.core = c ∧ e.2.begin_ = t + 2))
              (emitAt s rest t) = eventsFor (emitAt s rest t) c (t + 2) from rfl, hrest]
        rw [if_neg (by rintro ⟨-, hmem, -⟩; exact hcr hmem),
            if_pos ⟨rfl, List.mem_cons_self _ _, hc⟩]
      · rw [if_neg (by simpa using hct)]
        rw [show List.filter (fun e => decide (e.2.core = core ∧ e.2.begin_ = T))
              (emitAt s rest t) = eventsFor (emitAt s rest t) core T from rfl, hrest]
        refine if_congr ?_ rfl rfl
        constructor
        · rintro ⟨h1, h2, h3⟩
          exact ⟨h1, List.mem_cons_of_mem _ h2, h3⟩
        · rintro ⟨h1, h2, h3⟩
          rcases List.mem_cons.mp h2 with h | h
          · exact absurd ⟨h.symm, h1⟩ hct
          · exact ⟨h1, h, h3⟩

/-- C8: for every core and every timeslice T with a non-idle assignment,
the Assigner emits the aggregated AssignCore message for T exactly once
over a run of the clock through timeslices 0..N that reaches T's emission
point, at a lookahead of exactly two timeslices (emitted at timeslice
T - 2 with begin = T); cores with no active entries at T emit nothing
for T. -/
theorem c8_assign_exactly_once (s : AssignerState) (cores : List Nat)
    (core : Nat) (T : Nat) (N : Nat) (hnd : cores.Nodup) :
    eventsFor (coretimeTrace s cores N) core T =
      (if 2 ≤ T ∧ T ≤ N + 2 ∧ core ∈ cores ∧ entriesOf (activeItems s T core) ≠ [] then
        [(T - 2, { core := core, begin_ := T,
                   assignment := entriesOf (activeItems s T core), end_hint := none })]
      else []) := by
  induction N with
  | zero =>
    rw [show coretimeTrace s cores 0 = emitAt s cores 0 from rfl,
        eventsFor_emitAt s core 0 T cores hnd]
    by_cases hQ : core ∈ cores ∧ entriesOf (activeItems s T core) ≠ []
    · obtain ⟨hm, hne⟩ := hQ
      by_cases hT : T = 2
      · subst hT
        have hA : (0 : Nat) + 2 = 2 ∧ core ∈ cores ∧ entriesOf (activeItems s 2 core) ≠ [] :=
          ⟨rfl, hm, hne⟩
        have hC : 2 ≤ 2 ∧ 2 ≤ 0 + 2 ∧ core ∈ cores ∧ entriesOf (activeItems s 2 core) ≠ [] :=
          ⟨le_refl 2, by omega, hm, hne⟩
        rw [if_pos hA, if_pos hC]
      · have hA : ¬ ((0 : Nat) + 2 = T ∧ core ∈ cores ∧
            entriesOf (activeItems s T core) ≠ []) := by
          rintro ⟨hx, -, -⟩
          omega
        have hC : ¬ (2 ≤ T ∧ T ≤ 0 + 2 ∧ core ∈ cores ∧
            entriesOf (activeItems s T core) ≠ []) := by
          rintro ⟨hx, hy, -, -⟩
          omega
        rw [if_neg hA, if_neg hC]
    · have hA : ¬ ((0 : Nat) + 2 = T ∧ core ∈ cores ∧
          entriesOf (activeItems s T core) ≠ []) := by
        rintro ⟨-, hm, hne⟩
        exact hQ ⟨hm, hne⟩
      have hC : ¬ (2 ≤ T ∧ T ≤ 0 + 2 ∧ core ∈ cores ∧
          entriesOf (activeItems s T core) ≠ []) := by
        rintro ⟨-, -, hm, hne⟩
        exact hQ ⟨hm, hne⟩
      rw [if_neg hA, if_neg hC]
  | succ n ih =>
    rw [show coretimeTrace s cores (n + 1) = coretimeTrace s cores n ++ emitAt s cores (n + 1)
          from rfl,
        eventsFor_append, ih, eventsFor_emitAt s core (n + 1) T cores hnd]
    by_cases hQ : core ∈ cores ∧ entriesOf (activeItems s T core) ≠ []
    · obtain ⟨hm, hne⟩ := hQ
      rcases Nat.lt_trichotomy T (n + 3) with hlt | heq | hgt
      · by_cases h2T : 2 ≤ T
        · have hA : 2 ≤ T ∧ T ≤ n + 2 ∧ core ∈ cores ∧
              entriesOf (activeItems s T core) ≠ [] := ⟨h2T, by omega, hm, hne⟩
          have hB : ¬ (n + 1 + 2 = T ∧ core ∈ cores ∧
              entriesOf (activeItems s T core) ≠ []) := by
            rintro ⟨hx, -, -⟩
            omega
          have hC : 2 ≤ T ∧ T ≤ n + 1 + 2 ∧ core ∈ cores ∧
              entriesOf (activeItems s T core) ≠ [] := ⟨h2T, by omega, hm, hne⟩
          rw [if_pos hA, if_neg hB, if_pos hC, List.append_nil]
        · have hA : ¬ (2 ≤ T ∧ T ≤ n + 2 ∧ core ∈ cores ∧
              entriesOf (activeItems s T core) ≠ []) := by
            rintro ⟨hx, -, -, -⟩
            exact h2T hx
          have hB : ¬ (n + 1 + 2 = T ∧ core ∈ cores ∧
              entriesOf (activeItems s T core) ≠ []) := by
            rintro ⟨hx, -, -⟩
            omega
          have hC : ¬ (2 ≤ T ∧ T ≤ n + 1 + 2 ∧ core ∈ cores ∧
              entriesOf (activeItems s T core) ≠ []) := by
            rintro ⟨hx, -, -, -⟩
            exact h2T hx
          rw [if_neg hA, if_neg hB, if_neg hC]
          rfl
      · have hA : ¬ (2 ≤ T ∧ T ≤ n + 2 ∧ core ∈ cores ∧
            entriesOf (activeItems s T core) ≠ []) := by
          rintro ⟨-, hx, -, -⟩
          omega
        have hB : n + 1 + 2 = T ∧ core ∈ cores ∧
            entriesOf (activeItems s T core) ≠ [] := ⟨by omega, hm, hne⟩
        have hC : 2 ≤ T ∧ T ≤ n + 1 + 2 ∧ core ∈ cores ∧
            entriesOf (activeItems s T core) ≠ [] := ⟨by omega, by omega, hm, hne⟩
        rw [if_neg hA, if_pos hB, if_pos hC, List.nil_append]
        have hT : T - 2 = n + 1 := by omega
        rw [hT]
      · have hA : ¬ (2 ≤ T ∧ T ≤ n + 2 ∧ core ∈ cores ∧
            entriesOf (activeItems s T core) ≠ []) := by
          rintro ⟨-, hx, -, -⟩
          omega
        have hB : ¬ (n + 1 + 2 = T ∧ core ∈ cores ∧
            entriesOf (activeItems s T core) ≠ []) := by
          rintro ⟨hx, -, -⟩
          omega
        have hC : ¬ (2 ≤ T ∧ T ≤ n + 1 + 2 ∧ core ∈ cores ∧
            entriesOf (activeItems s T core) ≠ []) := by
          rintro ⟨-, hx, -, -⟩
          omega
        rw [if_neg hA, if_neg hB, if_neg hC]
        rfl
    · have hA : ¬ (2 ≤ T ∧ T ≤ n + 2 ∧ core ∈ cores ∧
          entriesOf (activeItems s T core) ≠ []) := by
        rintro ⟨-, -, hm, hne⟩
        exact hQ ⟨hm, hne⟩
      have hB : ¬ (n + 1 + 2 = T ∧ core ∈ cores ∧
          entriesOf (activeItems s T core) ≠ []) := by
        rintro ⟨-, hm, hne⟩
        exact hQ ⟨hm, hne⟩
      have hC : ¬ (2 ≤ T ∧ T ≤ n + 1 + 2 ∧ core ∈ cores ∧
          entriesOf (activeItems s T core) ≠ []) := by
        rintro ⟨-, -, hm, hne⟩
        exact hQ ⟨hm, hne⟩
      rw [if_neg hA, if_neg hB, if_neg hC]
      rfl

/-- Witness for C8: the exactly-once law applied to the Scenario A state,
core 0 and effect timeslice 8, over a run through timeslice 6. -/
theorem c8_witness :
    eventsFor (coretimeTrace scenarioA [0] 6) 0 8 =
      (if 2 ≤ 8 ∧ 8 ≤ 6 + 2 ∧ 0 ∈ [(0 : Nat)] ∧
          entriesOf (activeItems scenarioA 8 0) ≠ [] then
        [(8 - 2, { core := 0, begin_ := 8,
                   assignment := entriesOf (activeItems scenarioA 8 0), end_hint := none })]
      else []) :=
  c8_assign_exactly_once scenarioA [0] 0 8 6 (by decide)

/-- C3: partition(r, pivot) produces two records whose contiguous time
ranges [begin,pivot) and [pivot,end) re-merge to exactly r's [begin,end)
with part and owner unchanged, and interlace(r, p) produces two sibling
records over the same [begin,end) whose disjoint parts union to exactly
r.part (round-trip law). -/
theorem c3_partition_interlace_roundtrip (r : RegionId) (rec : RegionRecord)
    (pivot : Nat) (p : CorePart)
    (h1 : r.begin_ < pivot) (h2 : pivot < rec.end_)
    (h3 : p ≠ ∅) (h4 : p ⊂ r.part) :
    ∃ a b c d,
      partition r rec pivot = Except.ok (a, b) ∧
      interlace r rec p = Except.ok (c, d) ∧
      Finset.Ico a.1.begin_ a.2.end_ ∪ Finset.Ico b.1.begin_ b.2.end_ =
        Finset.Ico r.begin_ rec.end_ ∧
      a.1.begin_ = r.begin_ ∧ a.2.end_ = pivot ∧
      b.1.begin_ = pivot ∧ b.2.end_ = rec.end_ ∧
      a.1.part = r.part ∧ b.1.part = r.part ∧
      a.2.owner = rec.owner ∧ b.2.owner = rec.owner ∧
      c.1.part ∪ d.1.part = r.part ∧ Disjoint c.1.part d.1.part ∧
      c.1.begin_ = r.begin_ ∧ d.1.begin_ = r.begin_ ∧
      c.2.end_ = rec.end_ ∧ d.2.end_ = rec.end_ := by
  refine ⟨(r, { rec with end_ := pivot }), ({ r with begin_ := pivot }, rec),
    ({ r with part := p }, rec), ({ r with part := r.part \ p }, rec), ?_, ?_, ?_, ?_⟩
  · simp [partition, h1, h2]
  · simp [interlace, h3, h4]
  · exact Finset.Ico_union_Ico_eq_Ico (le_of_lt h1) (le_of_lt h2)
  · refine ⟨rfl, rfl, rfl, rfl, rfl, rfl, rfl, rfl, ?_, ?_, rfl, rfl, rfl, rfl⟩
    · exact Finset.union_sdiff_of_subset h4.subset
    · exact Finset.disjoint_sdiff

/-- Witness for C3: the round-trip law applied to a concrete whole-core
region partitioned at timeslice 1 and interlaced at its first 20 chunks. -/
theorem c3_witness :
    ∃ a b c d,
      partition ⟨0, 0, CorePart.complete⟩ ⟨2, some 1, none⟩ 1 = Except.ok (a, b) ∧
      interlace ⟨0, 0, CorePart.complete⟩ ⟨2, some 1, none⟩ (CorePart.from_chunk 0 20) =
        Except.ok (c, d) ∧
      Finset.Ico a.1.begin_ a.2.end_ ∪ Finset.Ico b.1.begin_ b.2.end_ =
        Finset.Ico (0 : Nat) 2 ∧
      a.1.begin_ = 0 ∧ a.2.end_ = 1 ∧
      b.1.begin_ = 1 ∧ b.2.end_ = 2 ∧
      a.1.part = CorePart.complete ∧ b.1.part = CorePart.complete ∧
      a.2.owner = some 1 ∧ b.2.owner = some 1 ∧
      c.1.part ∪ d.1.part = CorePart.complete ∧ Disjoint c.1.part d.1.part ∧
      c.1.begin_ = 0 ∧ d.1.begin_ = 0 ∧
      c.2.end_ = 2 ∧ d.2.end_ = 2 :=
  c3_partition_interlace_roundtrip ⟨0, 0, CorePart.complete⟩ ⟨2, some 1, none⟩ 1
    (CorePart.from_chunk 0 20) (by decide) (by decide) (by decide) (by decide)

/-- C4: each emitted assignment entry's weight equals
ticks(part) = popcount(part) * (FULL_CORE_TICKS / TOTAL_CHUNKS) with
TOTAL_CHUNKS = 80 and FULL_CORE_TICKS = 57600 (720 ticks per chunk), and
for every set of sibling regions produced purely by interlacing one
original complete-core region, the sum of ticks over all resulting
assignments is exactly 57600. -/
theorem c4_ticks_conservation (l : List CorePart) (h : InterlaceSiblings l) :
    (FULL_CORE_TICKS / TOTAL_CHUNKS = 720 ∧ FULL_CORE_TICKS = 57600 ∧ TOTAL_CHUNKS = 80) ∧
    (∀ p : CorePart, ticks p = p.popcount * 720) ∧
    (∀ items : Schedule, ∀ e ∈ entriesOf items,
      ∃ a q, (a, q) ∈ aggregate items ∧ e = (a, ticks q)) ∧
    (l.map ticks).sum = 57600 := by
  refine ⟨⟨rfl, rfl, rfl⟩, fun p => rfl, ?_, ?_⟩
  · intro items e he
    rw [entriesOf, List.mem_filterMap] at he
    obtain ⟨⟨a, q⟩, hmem, hf⟩ := he
    by_cases hidle : a = CoreAssignment.Idle
    · simp [hidle] at hf
    · simp only [hidle, if_false, Option.some.injEq] at hf
      exact ⟨a, q, hmem, hf.symm⟩
  · induction h with
    | root => decide
    | split pre post p q _ _hq hsub ih =>
      simp only [List.map_append, List.map_cons, List.sum_append, List.sum_cons] at ih ⊢
      rw [← ih, ← ticks_split hsub.subset]
      ring

/-- Witness for C4: the conservation law applied to the concrete split of a
complete core into its first 20 chunks and the complement. -/
theorem c4_witness :
    (FULL_CORE_TICKS / TOTAL_CHUNKS = 720 ∧ FULL_CORE_TICKS = 57600 ∧ TOTAL_CHUNKS = 80) ∧
    (∀ p : CorePart, ticks p = p.popcount * 720) ∧
    (∀ items : Schedule, ∀ e ∈ entriesOf items,
      ∃ a q, (a, q) ∈ aggregate items ∧ e = (a, ticks q)) ∧
    (([CorePart.from_chunk 0 20, CorePart.complete \ CorePart.from_chunk 0 20] :
        List CorePart).map ticks).sum = 57600 :=
  c4_ticks_conservation _
    (InterlaceSiblings.split [] [] CorePart.complete (CorePart.from_chunk 0 20)
      InterlaceSiblings.root (by decide) (by decide))

/-- C5: after start_sales, advancing two timeslices, purchasing a core and
assigning it to task 1000, the Assigner emits exactly one AssignCore event,
two timeslices before it takes effect, with core 0, begin 8, assignment
[(Task 1000, 57600)] and no end hint. -/
theorem c5_scenarioA_single_event :
    coretimeTrace scenarioA [0] 6 =
      [(6, { core := 0, begin_ := 8,
             assignment := [(CoreAssignment.Task 1000, 57600)], end_hint := none })] := by
  decide

/-- C6: a whole-core region interlaced into a 20-chunk piece and its
complement, each piece further partitioned in time and assigned to distinct
tasks, yields assignment events whose per-event tick values are exactly
14400 for the 20-chunk pieces and 43200 for the 60-chunk pieces at each
affected timeslice.  The first conjuncts verify that interlace and the two
partitions produce exactly the four regions Scenario B assigns; the last
is the resulting trace. -/
theorem c6_scenarioB_tick_values :
    interlace ⟨8, 0, CorePart.complete⟩ ⟨11, some 1, some 100⟩ (CorePart.from_chunk 0 20) =
      Except.ok ((⟨8, 0, CorePart.from_chunk 0 20⟩, ⟨11, some 1, some 100⟩),
                 (⟨8, 0, CorePart.from_chunk 20 80⟩, ⟨11, some 1, some 100⟩)) ∧
    partition ⟨8, 0, CorePart.from_chunk 0 20⟩ ⟨11, some 1, some 100⟩ 9 =
      Except.ok ((⟨8, 0, CorePart.from_chunk 0 20⟩, ⟨9, some 1, some 100⟩),
                 (⟨9, 0, CorePart.from_chunk 0 20⟩, ⟨11, some 1, some 100⟩)) ∧
    partition ⟨8, 0, CorePart.from_chunk 20 80⟩ ⟨11, some 1, some 100⟩ 10 =
      Except.ok ((⟨8, 0, CorePart.from_chunk 20 80⟩, ⟨10, some 1, some 100⟩),
                 (⟨10, 0, CorePart.from_chunk 20 80⟩, ⟨11, some 1, some 100⟩)) ∧
    coretimeTrace scenarioB [0] 9 =
      [(6, { core := 0, begin_ := 8,
             assignment := [(CoreAssignment.Task 1001, 14400), (CoreAssignment.Task 1002, 43200)],
             end_hint := none }),
       (7, { core := 0, begin_ := 9,
             assignment := [(CoreAssignment.Task 1002, 43200), (CoreAssignment.Task 1003, 14400)],
             end_hint := none }),
       (8, { core := 0, begin_ := 10,
             assignment := [(CoreAssignment.Task 1003, 14400), (CoreAssignment.Task 1004, 43200)],
             end_hint := none })] := by
  refine ⟨by decide, by decide, by decide, by decide⟩

/-- C7: check_revenue is a single bounded step (the cursor advances by at
most one and never rewinds), returning true exactly while unprocessed
history remains and false once the cursor has reached the present, so a
caller driving it in a loop terminates: after present - cursor iterations
the cursor has reached the present and the next call returns false. -/
theorem c7_check_revenue_bounded_loop (c : RevenueCursor) :
    ((check_revenue c).2 = true ↔ c.next_timeslice_to_process < c.present) ∧
    ((check_revenue c).2 = false ↔ c.present ≤ c.next_timeslice_to_process) ∧
    c.next_timeslice_to_process ≤ (check_revenue c).1.next_timeslice_to_process ∧
    (check_revenue c).1.next_timeslice_to_process ≤ c.next_timeslice_to_process + 1 ∧
    (check_revenue c).1.present = c.present ∧
    (iterCheck c (c.present - c.next_timeslice_to_process)).next_timeslice_to_process =
      max c.next_timeslice_to_process c.present ∧
    (check_revenue (iterCheck c (c.present - c.next_timeslice_to_process))).2 = false := by
  have key : ∀ n : Nat, ∀ c : RevenueCursor, n = c.present - c.next_timeslice_to_process →
      (iterCheck c n).next_timeslice_to_process =
        max c.next_timeslice_to_process c.present ∧
      (iterCheck c n).present = c.present := by
    intro n
    induction n with
    | zero =>
      intro c hn
      have h : c.present ≤ c.next_timeslice_to_process := by omega
      exact ⟨(Nat.max_eq_left h).symm, rfl⟩
    | succ n ihn =>
      intro c hn
      have hlt : c.next_timeslice_to_process < c.present := by omega
      have hstep : (check_revenue c).1 =
          { c with next_timeslice_to_process := c.next_timeslice_to_process + 1 } := by
        simp [check_revenue, hlt]
      obtain ⟨hA, hB⟩ := ihn
        { c with next_timeslice_to_process := c.next_timeslice_to_process + 1 }
        (show n = c.present - (c.next_timeslice_to_process + 1) by omega)
      rw [show iterCheck c (n + 1) = iterCheck (check_revenue c).1 n from rfl, hstep]
      constructor
      · rw [hA]
        show max (c.next_timeslice_to_process + 1) c.present =
          max c.next_timeslice_to_process c.present
        omega
      · exact hB
  obtain ⟨hA, hB⟩ := key _ c rfl
  have hfalse : (check_revenue (iterCheck c (c.present - c.next_timeslice_to_process))).2 =
      false := by
    have h : ¬ ((iterCheck c (c.present - c.next_timeslice_to_process)).next_timeslice_to_process <
        (iterCheck c (c.present - c.next_timeslice_to_process)).present) := by
      rw [hA, hB]
      omega
    simp [check_revenue, h]
  refine ⟨?_, ?_, ?_, ?_, ?_, hA, hfalse⟩
  · by_cases h : c.next_timeslice_to_process < c.present <;> simp [check_revenue, h]
  · by_cases h : c.next_timeslice_to_process < c.present <;> simp [check_revenue, h] <;> omega
  · by_cases h : c.next_timeslice_to_process < c.present <;> simp [check_revenue, h]
  · by_cases h : c.next_timeslice_to_process < c.present <;> simp [check_revenue, h]
  · by_cases h : c.next_timeslice_to_process < c.present <;> simp [check_revenue, h]

/-- The base time range of a pooled region has no duplicates. -/
theorem region_base_nodup (r : PoolRegion) :
    ((List.range (r.end_ - r.begin_)).map (fun i => r.begin_ + i)).Nodup :=
  List.Nodup.map (fun a b h => by omega) (List.nodup_range _)

/-- The eligible range of a pooled region has no duplicates. -/
theorem eligibleRange_nodup (r : PoolRegion) (cursor : Nat) :
    (eligibleRange r cursor).Nodup :=
  List.Nodup.filter _ (region_base_nodup r)

/-- The claimable timeslices of a pooled region have no duplicates. -/
theorem claimable_nodup (r : PoolRegion) (cursor : Nat) (paid : Finset Nat) (maxT : Nat) :
    (claimable r cursor paid maxT).Nodup :=
  (List.take_sublist _ _).nodup (List.Nodup.filter _ (region_base_nodup r))

/-- A claimable timeslice is eligible and not yet paid. -/
theorem mem_claimable {r : PoolRegion} {cursor : Nat} {paid : Finset Nat} {maxT t : Nat}
    (h : t ∈ claimable r cursor paid maxT) :
    t ∈ eligibleRange r cursor ∧ t ∉ paid := by
  have h1 := List.take_subset _ _ h
  rw [List.mem_filter] at h1
  obtain ⟨hbase, hpred⟩ := h1
  rw [decide_eq_true_eq] at hpred
  exact ⟨List.mem_filter.mpr ⟨hbase, decide_eq_true hpred.1⟩, hpred.2⟩

/-- With a claim budget covering the whole region, every eligible unpaid
timeslice is claimable. -/
theorem mem_claimable_of_budget {r : PoolRegion} {cursor : Nat} {paid : Finset Nat}
    {maxT t : Nat} (hmax : r.end_ - r.begin_ ≤ maxT)
    (ht : t ∈ eligibleRange r cursor) (hnp : t ∉ paid) :
    t ∈ claimable r cursor paid maxT := by
  unfold eligibleRange at ht
  rw [List.mem_filter] at ht
  obtain ⟨hbase, hlt⟩ := ht
  rw [decide_eq_true_eq] at hlt
  have hlen : (((List.range (r.end_ - r.begin_)).map (fun i => r.begin_ + i)).filter
      (fun t => decide (t < cursor ∧ t ∉ paid))).length ≤ maxT := by
    refine le_trans (List.length_filter_le _ _) ?_
    rw [List.length_map, List.length_range]
    exact hmax
  unfold claimable
  rw [List.take_of_length_le hlen, List.mem_filter]
  exact ⟨hbase, decide_eq_true ⟨hlt, hnp⟩⟩

/-- C2: claim_revenue is idempotent with respect to already-paid
timeslices: each call preserves the bookkeeping invariant, pays exactly the
shares of the newly paid timeslices, keeps the total ever paid within the
region's proportional share summed once per eligible timeslice, reduces the
pot by exactly the amount claimed, pays zero when every eligible timeslice
is already paid, and after a claim whose budget covers the whole region any
repeated claim returns zero paid (and no error). -/
theorem c2_no_double_payment (hist : Nat → InstaPoolEntry) (r : PoolRegion)
    (cursor : Nat) (st : RegionClaimState) (pot maxT : Nat)
    (hown : r.owner = none) (hinv : ClaimInv hist r cursor st) :
    ∃ st' amt pot',
      claim_revenue hist r cursor st pot maxT = Except.ok (st', amt, pot') ∧
      ClaimInv hist r cursor st' ∧
      st'.totalReceived = st.totalReceived + amt ∧
      st'.totalReceived ≤ fullShare hist r cursor ∧
      pot' = pot - amt ∧
      ((∀ t ∈ eligibleRange r cursor, t ∈ st.paid) → amt = 0) ∧
      (r.end_ - r.begin_ ≤ maxT → ∀ pot₂ maxT₂, ∃ st₂ pot₂',
        claim_revenue hist r cursor st' pot₂ maxT₂ = Except.ok (st₂, 0, pot₂')) := by
  have hok : claim_revenue hist r cursor st pot maxT = Except.ok
      (⟨st.paid ∪ (claimable r cursor st.paid maxT).toFinset,
        st.totalReceived +
          ((claimable r cursor st.paid maxT).map (share hist r.popcount)).sum⟩,
       ((claimable r cursor st.paid maxT).map (share hist r.popcount)).sum,
       pot - ((claimable r cursor st.paid maxT).map (share hist r.popcount)).sum) := by
    simp [claim_revenue, hown]
  have hdisj : Disjoint st.paid (claimable r cursor st.paid maxT).toFinset :=
    Finset.disjoint_right.mpr (fun t ht => (mem_claimable (List.mem_toFinset.mp ht)).2)
  have hmemall : ∀ t ∈ st.paid ∪ (claimable r cursor st.paid maxT).toFinset,
      t ∈ eligibleRange r cursor := by
    intro t ht
    rcases Finset.mem_union.mp ht with h | h
    · exact hinv.1 t h
    · exact (mem_claimable (List.mem_toFinset.mp h)).1
  have hsum : st.totalReceived +
      ((claimable r cursor st.paid maxT).map (share hist r.popcount)).sum =
      (st.paid ∪ (claimable r cursor st.paid maxT).toFinset).sum (share hist r.popcount) := by
    rw [Finset.sum_union hdisj, hinv.2,
      List.sum_toFinset _ (claimable_nodup r cursor st.paid maxT)]
  refine ⟨_, _, _, hok, ⟨hmemall, hsum⟩, rfl, ?_, rfl, ?_, ?_⟩
  · rw [hsum]
    have hsub : st.paid ∪ (claimable r cursor st.paid maxT).toFinset ⊆
        (eligibleRange r cursor).toFinset := by
      intro t ht
      exact List.mem_toFinset.mpr (hmemall t ht)
    calc (st.paid ∪ (claimable r cursor st.paid maxT).toFinset).sum (share hist r.popcount)
        ≤ (eligibleRange r cursor).toFinset.sum (share hist r.popcount) :=
          Finset.sum_le_sum_of_subset hsub
      _ = fullShare hist r cursor :=
          List.sum_toFinset _ (eligibleRange_nodup r cursor)
  · intro hall
    have hnil : claimable r cursor st.paid maxT = [] := by
      rw [claimable]
      have : ((List.range (r.end_ - r.begin_)).map (fun i => r.begin_ + i)).filter
          (fun t => decide (t < cursor ∧ t ∉ st.paid)) = [] := by
        rw [List.filter_eq_nil_iff]
        intro t htbase
        simp only [decide_eq_true_eq]
        rintro ⟨hlt, hnp⟩
        exact hnp (hall t (List.mem_filter.mpr ⟨htbase, decide_eq_true hlt⟩))
      rw [this, List.take_nil]
    simp [hnil]
  · intro hmax pot₂ maxT₂
    have hnil : claimable r cursor
        (st.paid ∪ (claimable r cursor st.paid maxT).toFinset) maxT₂ = [] := by
      rw [claimable]
      have : ((List.range (r.end_ - r.begin_)).map (fun i => r.begin_ + i)).filter
          (fun t => decide (t < cursor ∧
            t ∉ st.paid ∪ (claimable r cursor st.paid maxT).toFinset)) = [] := by
        rw [List.filter_eq_nil_iff]
        intro t htbase
        simp only [decide_eq_true_eq]
        rintro ⟨hlt, hnp⟩
        have helig : t ∈ eligibleRange r cursor :=
          List.mem_filter.mpr ⟨htbase, decide_eq_true hlt⟩
        by_cases hp : t ∈ st.paid
        · exact hnp (Finset.mem_union_left _ hp)
        · exact hnp (Finset.mem_union_right _
            (List.mem_toFinset.mpr (mem_claimable_of_budget hmax helig hp)))
      rw [this, List.take_nil]
    have h2 : claim_revenue hist r cursor
        ⟨st.paid ∪ (claimable r cursor st.paid maxT).toFinset,
         st.totalReceived +
           ((claimable r cursor st.paid maxT).map (share hist r.popcount)).sum⟩
        pot₂ maxT₂ =
        Except.ok (⟨st.paid ∪ (claimable r cursor st.paid maxT).toFinset,
          st.totalReceived +
            ((claimable r cursor st.paid maxT).map (share hist r.popcount)).sum⟩,
          0, pot₂) := by
      simp [claim_revenue, hown, hnil]
    exact ⟨_, _, h2⟩

/-- Witness for C2: the no-double-payment law applied to Scenario C's first
region with revenue 20, a fresh claim state and the full pot. -/
theorem c2_witness :
    ∃ st' amt pot',
      claim_revenue (scenarioC_hist 20) scenarioC_regionA 1
        (⟨∅, 0⟩ : RegionClaimState) 20 100 = Except.ok (st', amt, pot') ∧
      ClaimInv (scenarioC_hist 20) scenarioC_regionA 1 st' ∧
      st'.totalReceived = (⟨∅, 0⟩ : RegionClaimState).totalReceived + amt ∧
      st'.totalReceived ≤ fullShare (scenarioC_hist 20) scenarioC_regionA 1 ∧
      pot' = 20 - amt ∧
      ((∀ t ∈ eligibleRange scenarioC_regionA 1,
          t ∈ (⟨∅, 0⟩ : RegionClaimState).paid) → amt = 0) ∧
      (scenarioC_regionA.end_ - scenarioC_regionA.begin_ ≤ 100 → ∀ pot₂ maxT₂,
        ∃ st₂ pot₂', claim_revenue (scenarioC_hist 20) scenarioC_regionA 1 st' pot₂ maxT₂ =
          Except.ok (st₂, 0, pot₂')) :=
  c2_no_double_payment (scenarioC_hist 20) scenarioC_regionA 1 ⟨∅, 0⟩ 20 100 rfl
    ⟨by simp, by simp⟩

/-- C1 counterexample: with revenue R = 7 over a total contribution of 100,
the claims of the two buyers pooling 20 and 80 chunks pay 1 and 5 under the
spec's integer-division share formula: the payouts are not in exact
proportion 20:80 (1:5 instead of 1:4), nor do they sum to R. -/
theorem c1_proportionality_counterexample :
    ∃ stA amtA potA stB amtB potB,
      claim_revenue (scenarioC_hist 7) scenarioC_regionA 1
        (⟨∅, 0⟩ : RegionClaimState) 7 100 = Except.ok (stA, amtA, potA) ∧
      claim_revenue (scenarioC_hist 7) scenarioC_regionB 1
        (⟨∅, 0⟩ : RegionClaimState) potA 100 = Except.ok (stB, amtB, potB) ∧
      amtA = 1 ∧ amtB = 5 ∧ ¬ (80 * amtA = 20 * amtB) ∧ ¬ (amtA + amtB = 7) := by
  refine ⟨_, _, _, _, _, _, rfl, rfl, ?_, ?_, ?_, ?_⟩ <;> decide

/-- C1 (amended): with two buyers pooling 20 and 80 of 100 total chunks and
revenue R, the claims pay the floor shares R*20/100 and R*80/100, which are
in exact proportion 20:80 whenever 5 divides R (then summing to exactly R),
and the pot decreases by exactly the total amount claimed. -/
theorem c1_amended_proportional_payout (R pot0 : Nat) (h5 : 5 ∣ R) :
    ∃ stA amtA potA stB amtB potB,
      claim_revenue (scenarioC_hist R) scenarioC_regionA 1
        (⟨∅, 0⟩ : RegionClaimState) pot0 100 = Except.ok (stA, amtA, potA) ∧
      claim_revenue (scenarioC_hist R) scenarioC_regionB 1
        (⟨∅, 0⟩ : RegionClaimState) potA 100 = Except.ok (stB, amtB, potB) ∧
      amtA = R * 20 / 100 ∧ amtB = R * 80 / 100 ∧
      amtA = R / 5 ∧ amtB = 4 * (R / 5) ∧
      80 * amtA = 20 * amtB ∧ amtA + amtB = R ∧
      potA = pot0 - amtA ∧ potB = pot0 - (amtA + amtB) := by
  obtain ⟨k, rfl⟩ := h5
  have hclA : claimable scenarioC_regionA 1 ∅ 100 = [0] := rfl
  have hclB : claimable scenarioC_regionB 1 ∅ 100 = [0] := rfl
  have hclA2 : claimable ⟨0, 1, none, 20, 2⟩ 1 ∅ 100 = [0] := rfl
  have hclB2 : claimable ⟨0, 1, none, 80, 3⟩ 1 ∅ 100 = [0] := rfl
  refine ⟨_, _, _, _, _, _, rfl, rfl, ?_, ?_, ?_, ?_, ?_, ?_, ?_, ?_⟩ <;>
    (try simp only [hclA, hclB, hclA2, hclB2, List.map_cons, List.map_nil,
      List.sum_cons, List.sum_nil]) <;>
    (try simp [share, scenarioC_hist, scenarioC_regionA, scenarioC_regionB]) <;>
    omega

/-- Witness for C1 (amended): revenue 20 and pot 20 give payouts 4 and 16,
in exact proportion 20:80, draining the pot to zero. -/
theorem c1_witness :
    ∃ stA amtA potA stB amtB potB,
      claim_revenue (scenarioC_hist 20) scenarioC_regionA 1
        (⟨∅, 0⟩ : RegionClaimState) 20 100 = Except.ok (stA, amtA, potA) ∧
      claim_revenue (scenarioC_hist 20) scenarioC_regionB 1
        (⟨∅, 0⟩ : RegionClaimState) potA 100 = Except.ok (stB, amtB, potB) ∧
      amtA = 20 * 20 / 100 ∧ amtB = 20 * 80 / 100 ∧
      amtA = 20 / 5 ∧ amtB = 4 * (20 / 5) ∧
      80 * amtA = 20 * amtB ∧ amtA + amtB = 20 ∧
      potA = 20 - amtA ∧ potB = 20 - (amtA + amtB) :=
  c1_amended_proportional_payout 20 20 ⟨4, rfl⟩

end Broker

namespace DeriveImpl

/-- An empty checkTypeItems result characterizes the partial impl blocks
whose every item is an associated type named in type_items. -/
theorem checkTypeItems_eq_none (tys : List Ident) (l : List ImplItem) :
    checkTypeItems l tys = none ↔
      ∀ i ∈ l, ∃ id body, i = ImplItem.typeItem id body ∧ id ∈ tys := by
  induction l with
  | nil => simp [checkTypeItems]
  | cons i rest ih =>
    cases i with
    | typeItem id b =>
      by_cases h : id ∈ tys
      · rw [show checkTypeItems (ImplItem.typeItem id b :: rest) tys =
            checkTypeItems rest tys by simp [checkTypeItems, h]]
        rw [ih]
        constructor
        · intro hr i hi
          rcases List.mem_cons.mp hi with rfl | hi'
          · exact ⟨id, b, rfl, h⟩
          · exact hr i hi'
        · intro hall i hi
          exact hall i (List.mem_cons_of_mem _ hi)
      · rw [show checkTypeItems (ImplItem.typeItem id b :: rest) tys =
            some "some item in the partial_impl_block is unexpected" by
          simp [checkTypeItems, h]]
        constructor
        · intro hnone
          exact Option.noConfusion hnone
        · intro hall
          obtain ⟨id', b', heq, hmem⟩ := hall _ (List.mem_cons_self _ _)
          cases heq
          exact absurd hmem h
    | constItem id b =>
      rw [show checkTypeItems (ImplItem.constItem id b :: rest) tys =
          some "only support type items for now" from rfl]
      constructor
      · intro hnone
        exact Option.noConfusion hnone
      · intro hall
        obtain ⟨id', b', heq, -⟩ := hall _ (List.mem_cons_self _ _)
        exact ImplItem.noConfusion heq
    | methodItem id b =>
      rw [show checkTypeItems (ImplItem.methodItem id b :: rest) tys =
          some "only support type items for now" from rfl]
      constructor
      · intro hnone
        exact Option.noConfusion hnone
      · intro hall
        obtain ⟨id', b', heq, -⟩ := hall _ (List.mem_cons_self _ _)
        exact ImplItem.noConfusion heq
    | otherItem b =>
      rw [show checkTypeItems (ImplItem.otherItem b :: rest) tys =
          some "only support type items for now" from rfl]
      constructor
      · intro hnone
        exact Option.noConfusion hnone
      · intro hall
        obtain ⟨id', b', heq, -⟩ := hall _ (List.mem_cons_self _ _)
        exact ImplItem.noConfusion heq

/-- C10: derive_impl_inner panics (it does not return an Err) exactly when
the supplied partial impl block contains an item that is not an associated
type or an associated type whose identifier is not listed in type_items,
and returns Ok exactly when every partial-impl item is a type item named in
type_items. -/
theorem c10_derive_impl_inner_panic_conditions (pImplItems : List ImplItem)
    (type_items : List Ident) (implementing_type : Path) :
    ((∃ r, derive_impl_inner pImplItems type_items implementing_type = MacroOut.ok r) ↔
      ∀ i ∈ pImplItems, ∃ id body, i = ImplItem.typeItem id body ∧ id ∈ type_items) ∧
    ((∃ msg, derive_impl_inner pImplItems type_items implementing_type =
        MacroOut.panicked msg) ↔
      ¬ ∀ i ∈ pImplItems, ∃ id body, i = ImplItem.typeItem id body ∧ id ∈ type_items) := by
  have hiff := checkTypeItems_eq_none type_items pImplItems
  rcases hcheck : checkTypeItems pImplItems type_items with _ | msg
  · have hall := hiff.mp hcheck
    have hok : derive_impl_inner pImplItems type_items implementing_type = MacroOut.ok
        ⟨pImplItems ++
          ((type_items.filter (fun id => ! pImplItems.any (fun i => isTypeNamed i id))).map
            (fun id => ImplItem.typeItem id (innerAlias implementing_type id)))⟩ := by
      unfold derive_impl_inner
      rw [hcheck]
    refine ⟨⟨fun _ => hall, fun _ => ⟨_, hok⟩⟩, ?_, ?_⟩
    · rintro ⟨msg, hmsg⟩
      rw [hok] at hmsg
      exact MacroOut.noConfusion hmsg
    · intro hnot
      exact absurd hall hnot
  · have hnotall : ¬ ∀ i ∈ pImplItems, ∃ id body,
        i = ImplItem.typeItem id body ∧ id ∈ type_items := by
      intro hall
      rw [hiff.mpr hall] at hcheck
      exact Option.noConfusion hcheck
    have hpan : derive_impl_inner pImplItems type_items implementing_type =
        MacroOut.panicked msg := by
      unfold derive_impl_inner
      rw [hcheck]
    constructor
    · constructor
      · rintro ⟨r, hr⟩
        rw [hpan] at hr
        exact MacroOut.noConfusion hr
      · intro hall
        exact absurd hall hnotall
    · exact ⟨fun _ => hnotall, fun _ => ⟨msg, hpan⟩⟩

/-- C9 counterexample: when the local and foreign impls each contain the
identical identifier-less item, combine_impls drops the foreign copy even
though its identifier (it has none) collides with no local identifier, so
the claim's "non-colliding foreign non-type items are copied verbatim" is
false as stated: the output holds one copy, not two. -/
theorem c9_identless_counterexample :
    combine_impls cexLocal cexForeign cexPath = ⟨[ImplItem.otherItem "X"]⟩ ∧
    ¬ ((combine_impls cexLocal cexForeign cexPath).items.count (ImplItem.otherItem "X") = 2) := by
  constructor
  · rfl
  · decide

/-- C9 (amended): combine_impls returns the local impl's items unchanged
(as a prefix), extended by the filter_mapped foreign items, where a foreign
item whose identifier collides with a local identifier is dropped, a
non-colliding foreign associated type is replaced by an alias to the
foreign DefaultConfig item, a non-colliding foreign const or method is
copied verbatim, and a foreign item lacking an identifier is dropped when
an identical identifier-less item exists locally and otherwise copied
verbatim. -/
theorem c9_amended_combine_impls (l f : ItemImpl) (p : Path) :
    (combine_impls l f p).items = l.items ++ f.items.filterMap (combineStep l p) ∧
    (combine_impls l f p).items.take l.items.length = l.items ∧
    (∀ item id, impl_item_ident item = some id → id ∈ localKeys l →
      combineStep l p item = none) ∧
    (∀ id b, combineStep l p (ImplItem.typeItem id b) =
      (if id ∈ localKeys l then none
       else some (ImplItem.typeItem id (aliasBody p id)))) ∧
    (∀ id b, combineStep l p (ImplItem.constItem id b) =
      (if id ∈ localKeys l then none else some (ImplItem.constItem id b))) ∧
    (∀ id b, combineStep l p (ImplItem.methodItem id b) =
      (if id ∈ localKeys l then none else some (ImplItem.methodItem id b))) ∧
    (∀ b, combineStep l p (ImplItem.otherItem b) =
      (if ImplItem.otherItem b ∈ localIdentless l then none
       else some (ImplItem.otherItem b))) := by
  refine ⟨rfl, ?_, ?_, fun id b => rfl, fun id b => rfl, fun id b => rfl, fun b => rfl⟩
  · rw [show (combine_impls l f p).items =
        l.items ++ f.items.filterMap (combineStep l p) from rfl]
    exact List.take_left _ _
  · intro item id hid hmem
    cases item with
    | typeItem n b =>
      simp only [impl_item_ident, Option.some.injEq] at hid
      subst hid
      simp [combineStep, impl_item_ident, hmem]
    | constItem n b =>
      simp only [impl_item_ident, Option.some.injEq] at hid
      subst hid
      simp [combineStep, impl_item_ident, hmem]
    | methodItem n b =>
      simp only [impl_item_ident, Option.some.injEq] at hid
      subst hid
      simp [combineStep, impl_item_ident, hmem]
    | otherItem b =>
      simp [impl_item_ident] at hid

end DeriveImpl
